import Mathlib

/-!
Verification of the PyCABeM benchmark driver (src/hicbem.py and src/benchmark.py).

The Python sources are shallowly embedded: pure helpers become Lean functions,
the process-monitoring loop `controlTime` becomes a fuelled discrete-time
interpreter over an abstract process model (each `time.sleep(1)` advances the
clock by one second and `time.clock()` reads the current clock), and Python
exceptions become `Option`/`Except` results.  Components of this repository
that are not present under src/ (the `ExecPool` scheduler of benchcore.py) are
modelled from the spec and marked as such in their doc comments.
-/

namespace PyCABeM

/-! ### Abstract process model for `controlTime` (src/hicbem.py, lines 90-113)

A spawned process is abstracted by the absolute time at which it would exit
naturally (`none` = never), and by how long after a terminate signal it exits
(`none` = it ignores the terminate signal).  A kill is always effective. -/

structure Proc where
  natExit : Option Nat
  termDelay : Option Nat
deriving DecidableEq, Repr

/-- `proc.poll() is not None` at time `t`, given the time a terminate signal
was sent (if any) and whether the process was killed. -/
def pollDead (p : Proc) (termAt : Option Nat) (killed : Bool) (t : Nat) : Bool :=
  killed ||
  (match p.natExit with
   | some e => decide (e ≤ t)
   | none => false) ||
  (match termAt, p.termDelay with
   | some ta, some d => decide (ta + d ≤ t)
   | _, _ => false)

/-- Result of a terminating run of `controlTime`: the time the outer loop
observes the process dead and returns, and the times at which `terminate()`
and `kill()` were issued, if they were. -/
structure CTResult where
  tEnd : Nat
  termAt : Option Nat
  killAt : Option Nat
deriving DecidableEq, Repr

/-- The inner grace loop of `controlTime` (src/hicbem.py, lines 106-109):
`i = 0; while proc.poll() is None and i < 10: i += 1; time.sleep(1)`.
`ta` is the time the terminate signal was sent, `n` the remaining iterations
(called with `n = 10`), `t` the current time.  Returns the time at which the
loop exits. -/
def graceWait (p : Proc) (ta : Nat) : Nat → Nat → Nat
  | 0, t => t
  | n + 1, t => if pollDead p (some ta) false t then t else graceWait p ta n (t + 1)

/-- The outer monitoring loop of `controlTime` (src/hicbem.py, lines 100-113),
under the clock semantics the spec intends: the guard's clock reading starts
at `exectime` (recorded immediately before `subprocess.Popen` in
`execAlgorithm`, line 131) and advances one second per `time.sleep(1)`.
Each iteration polls, sleeps one second, and, when `timeout` is nonzero and
the elapsed reading exceeds it, terminates the process, waits the 10-second
grace window, and kills the process if it is still alive.

This wall-clock reading is NOT what the source's `time.clock()` returns on
Python 2 / POSIX — there it is the parent's CPU time, which the sleeps do
not advance; that semantics is modelled by `controlTimeCpu` below.  The
grace-window body (lines 104-111) and the `timeout = 0` guard behave
identically under either clock, since their timing is driven by the
`time.sleep(1)` calls and not by the clock reading.

`fuel` bounds the number of outer iterations; `none` means the loop did not
finish within `fuel` iterations. -/
def controlTime (p : Proc) (timeout : Nat) : Nat → Nat → Option CTResult
  | 0, _ => none
  | fuel + 1, t =>
    if pollDead p none false t then some ⟨t, none, none⟩
    else if timeout ≠ 0 ∧ t + 1 > timeout then
      if pollDead p (some (t + 1)) false (graceWait p (t + 1) 10 (t + 1)) then
        some ⟨graceWait p (t + 1) 10 (t + 1), some (t + 1), none⟩
      else some ⟨graceWait p (t + 1) 10 (t + 1), some (t + 1), some (graceWait p (t + 1) 10 (t + 1))⟩
    else controlTime p timeout fuel (t + 1)

/-- The same monitoring loop (src/hicbem.py, lines 100-113) under the actual
Python 2 / POSIX semantics of `time.clock()`: it returns the parent
process's CPU time, and the monitor — which only sleeps and polls — accrues
no CPU time, so the reading stays at `cpu` while wall time `t` advances one
second per `time.sleep(1)`.  `cpu0` is the reading recorded as `exectime`
just before `subprocess.Popen`; the guard at line 102 compares `cpu - cpu0`
with the timeout. -/
def controlTimeCpu (p : Proc) (timeout cpu0 : Nat) : Nat → Nat → Nat → Option CTResult
  | 0, _, _ => none
  | fuel + 1, t, cpu =>
    if pollDead p none false t then some ⟨t, none, none⟩
    else if timeout ≠ 0 ∧ cpu - cpu0 > timeout then
      if pollDead p (some (t + 1)) false (graceWait p (t + 1) 10 (t + 1)) then
        some ⟨graceWait p (t + 1) 10 (t + 1), some (t + 1), none⟩
      else some ⟨graceWait p (t + 1) 10 (t + 1), some (t + 1),
        some (graceWait p (t + 1) 10 (t + 1))⟩
    else controlTimeCpu p timeout cpu0 fuel (t + 1) cpu

/-! ### `secondsToHms` (src/hicbem.py, lines 77-87)

`int()` on a non-negative value truncates, which is the floor; the claim only
concerns non-negative numbers of seconds. -/

/-- `secondsToHms` from src/hicbem.py: hours, minutes and remaining seconds. -/
def secondsToHms (seconds : ℚ) : ℚ × ℚ × ℚ :=
  let hours : ℚ := (⌊seconds / 3600⌋ : ℤ)
  let mins : ℚ := (⌊(seconds - hours * 3600) / 60⌋ : ℤ)
  let secs : ℚ := seconds - hours * 3600 - mins * 60
  (hours, mins, secs)

/-! ### `execAlgorithm` (src/hicbem.py, lines 116-138)

The `subprocess.Popen` call either yields a process or raises; the surrounding
`try`/`except StandardError` catches a spawn failure, prints it and skips the
`controlTime` monitoring.  The observable behaviour is the event list; the
outer `Except` layer records whether `execAlgorithm` itself raises. -/

inductive ExecEv where
  | spawnError (msg : String)
  | monitored (r : Option CTResult)
deriving DecidableEq, Repr

/-- `execAlgorithm` from src/hicbem.py: spawn, catching `StandardError`, else
monitor with `controlTime`.  It never re-raises the spawn error. -/
def execAlgorithm (spawnResult : Except String Proc) (timeout fuel : Nat) :
    Except String (List ExecEv) :=
  match spawnResult with
  | .error err => .ok [ExecEv.spawnError err]
  | .ok p => .ok [ExecEv.monitored (controlTime p timeout fuel 0)]

example : controlTime ⟨none, none⟩ 1 3 0 = some ⟨12, some 2, some 12⟩ := by decide
example : controlTime ⟨some 2, none⟩ 0 5 0 = some ⟨2, none, none⟩ := by decide
example : controlTime ⟨none, some 4⟩ 1 3 0 = some ⟨6, some 2, none⟩ := by decide

/-! ### The execution pool

`ExecPool` lives in benchcore.py, which is not under src/; only its callers
are.  Modelled from the spec: `execute(job)` enqueues the job as Pending and,
if a worker slot is free, immediately admits it; the monitoring loop reaps a
finished job, releases its slot and pops the next pending job into the freed
slot; `|active| ≤ capacity` is the invariant under scrutiny.  Jobs are
abstracted by identifiers. -/

structure ExecPool where
  capacity : Nat
  pending : List Nat
  active : List Nat
deriving DecidableEq, Repr

/-- Modelled from the spec: pop the head of the pending queue into a free
worker slot, if a slot is free (benchcore.py is not under src/). -/
def ExecPool.admit (p : ExecPool) : ExecPool :=
  match p.pending with
  | [] => p
  | j :: rest =>
    if p.active.length < p.capacity then
      { p with pending := rest, active := p.active ++ [j] }
    else p

/-- Modelled from the spec: `ExecPool.execute(job)` enqueues the job and, if a
worker slot is free, immediately begins its admission (benchcore.py is not
under src/). -/
def ExecPool.execute (p : ExecPool) (j : Nat) : ExecPool :=
  ExecPool.admit { p with pending := p.pending ++ [j] }

/-- Modelled from the spec: on a terminal transition the job's slot is
released and the next pending job is popped into the freed slot
(benchcore.py is not under src/). -/
def ExecPool.reap (p : ExecPool) (j : Nat) : ExecPool :=
  ExecPool.admit { p with active := p.active.erase j }

inductive PoolEvent where
  | execute (j : Nat)
  | reap (j : Nat)
deriving DecidableEq, Repr

def ExecPool.step (p : ExecPool) (e : PoolEvent) : ExecPool :=
  match e with
  | .execute j => p.execute j
  | .reap j => p.reap j

def ExecPool.runEvents (p : ExecPool) (evs : List PoolEvent) : ExecPool :=
  evs.foldl ExecPool.step p

/-- A freshly constructed pool with `c` worker slots. -/
def ExecPool.mkPool (c : Nat) : ExecPool := ⟨c, [], []⟩

/-- Pool capacity used by `generateNets` (src/benchmark.py, line 325), and
likewise by `shuffleNets` (line 416), `convertNets` (line 547) and
`evalResults` (line 675): `ExecPool(max(cpu_count() - 1, 1))`. -/
def genNetsPoolCapacity (ncpu : Nat) : Nat := max (ncpu - 1) 1

/-- Pool capacity used by `runApps` (src/benchmark.py, line 601):
`ExecPool(max(min(4, cpu_count() - 1), 1))`. -/
def runAppsPoolCapacity (ncpu : Nat) : Nat := max (min 4 (ncpu - 1)) 1

/-! ### Signal handling (src/benchmark.py, lines 800-822)

`terminationHandler` deletes the global `_execpool` (dropping the last
reference to it), clears the global to `None` and then calls `sys.exit(0)`.
Modelled from the spec: destroying the pool runs its teardown, which kills
every tracked process and cancels every pending job (`ExecPool.__del__` lives
in benchcore.py, which is not under src/).  The observable order of effects is
recorded as an event log. -/

inductive SigEvent where
  | teardown
  | exitProcess
deriving DecidableEq, Repr

structure SigState where
  execpool : Option ExecPool
  log : List SigEvent
deriving DecidableEq, Repr

/-- `terminationHandler` from src/benchmark.py, lines 800-811: if the global
pool exists, destroy it (teardown) and clear the global, then exit. -/
def terminationHandler (s : SigState) : SigState :=
  match s.execpool with
  | some _ => { execpool := none, log := s.log ++ [SigEvent.teardown, SigEvent.exitProcess] }
  | none => { execpool := none, log := s.log ++ [SigEvent.exitProcess] }

/-- The signals for which `__main__` installs `terminationHandler`
(src/benchmark.py, lines 817-821): SIGTERM, SIGHUP, SIGINT, SIGQUIT, SIGABRT,
by their Linux numbers. -/
def handledSignals : List Nat := [15, 1, 2, 3, 6]

/-- The handler table set up by `__main__` (src/benchmark.py, lines 814-822). -/
def installedHandler (sig : Nat) : Option (SigState → SigState) :=
  if sig ∈ handledSignals then some terminationHandler else none

/-! ### Failure locality of the algorithm-execution loops

`runApps.execute` (src/benchmark.py, lines 614-631) wraps each algorithm call
in its own `try`/`except StandardError`; `benchmark` in src/hicbem.py
(lines 180-185) wraps the whole `for alg in algors` loop in a single
`try`/`except StandardError`.  Each algorithm is abstracted by its name and by
its outcome (number of scheduled jobs, or a raised error).  Both embeddings
record the names of the algorithms actually invoked. -/

/-- The `execute` closure of `runApps` (src/benchmark.py, lines 614-631):
per-iteration `try`/`except`.  Returns the accumulated `jobsnum`, the names
invoked, and the errors caught and logged. -/
def runAppsExecute (algs : List (String × Except String Nat)) (jobsnum : Nat) :
    Nat × List String × List String :=
  match algs with
  | [] => (jobsnum, [], [])
  | (nm, r) :: rest =>
    match r with
    | .ok n =>
      let res := runAppsExecute rest (jobsnum + n)
      (res.1, nm :: res.2.1, res.2.2)
    | .error e =>
      let res := runAppsExecute rest jobsnum
      (res.1, nm :: res.2.1, e :: res.2.2)

/-- The algorithm loop of `benchmark` in src/hicbem.py (lines 180-185): a
single `try` around the whole `for` loop, so a raised `StandardError` aborts
the remaining iterations.  Returns the names invoked and the caught error,
if any. -/
def benchmarkAlgsLoop (algs : List (String × Except String Unit)) :
    List String × Option String :=
  match algs with
  | [] => ([], none)
  | (nm, r) :: rest =>
    match r with
    | .ok _ =>
      let res := benchmarkAlgsLoop rest
      (nm :: res.1, res.2)
    | .error e => ([nm], some e)

/-! ### Arity of the inner `evaluate` call in `evalResults`
(src/benchmark.py, lines 696-730)

`evaluate` is declared with four parameters and no defaults (line 696); the
per-datafile loop calls it with three positional arguments (line 730).  The
Python call protocol for a plain function raises `TypeError` unless the
argument count matches the parameter count, given no defaults or varargs. -/

/-- Parameters of the inner `evaluate` (src/benchmark.py, line 696). -/
def evaluateParams : List String := ["measure", "basefile", "asym", "jobsnum"]

/-- `evaluate` has no default parameter values (src/benchmark.py, line 696). -/
def evaluateDefaults : Nat := 0

/-- Positional arguments of the call `evaluate(basefile, asym, jobsnum)` in
the datafiles loop (src/benchmark.py, line 730). -/
def datafilesCallArgs : List String := ["basefile", "asym", "jobsnum"]

inductive PyCallResult where
  | ok
  | typeError
deriving DecidableEq, Repr

/-- Python positional-call protocol for a plain function with `nparams`
parameters of which the last `ndefaults` have defaults: `nargs` positional
arguments are accepted iff `nparams - ndefaults ≤ nargs ≤ nparams`. -/
def pyCallCheck (nparams ndefaults nargs : Nat) : PyCallResult :=
  if nparams - ndefaults ≤ nargs ∧ nargs ≤ nparams then .ok else .typeError

/-- The per-datafile loop of `evalResults` (src/benchmark.py, lines 727-730):
for each datafile it calls the four-parameter `evaluate` with the three
arguments `(basefile, asym, jobsnum)`; an arity `TypeError` propagates out of
the loop uncaught. -/
def evalDatafilesLoop (datafiles : List (Bool × String)) : Except PyCallResult Unit :=
  match datafiles with
  | [] => .ok ()
  | _ :: rest =>
    match pyCallCheck evaluateParams.length evaluateDefaults datafilesCallArgs.length with
    | .ok => evalDatafilesLoop rest
    | .typeError => .error .typeError

/-! ### `parseParams` (src/hicbem.py, lines 25-74)

The parser state carries the lists under construction, the pending
string-parameter kind `sparam` (`none` = Python `False`), the `weighted` flag,
`timemul` (initialised to 1 and never reassigned anywhere in the function) and
`multiplier` (unassigned initially; set to 60 or 3600 by the `-tm` / `-th`
branch, line 58-61, and never read).  Raised exceptions (`ValueError`,
`IndexError` on `arg[0]` of an empty argument, `int()` failures, the
assertions) are all modelled as `none`. -/

/-- Value of a decimal digit character. -/
def digitVal (c : Char) : Option Nat :=
  if '0' ≤ c ∧ c ≤ '9' then some (c.toNat - '0'.toNat) else none

def parseDigitsAux : List Char → Nat → Option Nat
  | [], acc => some acc
  | c :: rest, acc =>
    match digitVal c with
    | some d => parseDigitsAux rest (acc * 10 + d)
    | none => none

/-- Python `int(s)` on a stripped literal: an optional sign followed by at
least one decimal digit; anything else raises `ValueError` (`none`). -/
def pyInt (s : String) : Option Int :=
  match s.toList with
  | [] => none
  | '-' :: rest => if rest.isEmpty then none else (parseDigitsAux rest 0).map (fun n => -(n : Int))
  | '+' :: rest => if rest.isEmpty then none else (parseDigitsAux rest 0).map (fun n => (n : Int))
  | cs => (parseDigitsAux cs 0).map (fun n => (n : Int))

structure ParseState where
  udatas : List String
  wdatas : List String
  timeout : Int
  sparam : Option Char
  weighted : Bool
  timemul : Int
  multiplier : Option Int
deriving DecidableEq, Repr

def initParseState : ParseState := ⟨[], [], 0, none, false, 1, none⟩

/-- One iteration of the `for arg in args` loop of `parseParams`
(src/hicbem.py, lines 40-72). -/
def parseArg (st : ParseState) (arg : String) : Option ParseState :=
  match arg.toList with
  | [] => none
  | c0 :: rest =>
    if ((c0 != '-') != st.sparam.isSome) ||
        (if c0 == '-' then decide (arg.length < 2) else (arg == "." || arg == "..")) then
      none
    else if c0 == '-' then
      match rest with
      | [] => none
      | c1 :: rest2 =>
        if c1 == 'd' || c1 == 'f' then
          match rest2 with
          | [] => some { st with weighted := false, sparam := some 'd' }
          | c2 :: rest3 =>
            if (c2 != 'u' && c2 != 'w') || !rest3.isEmpty then none
            else some { st with weighted := c2 == 'w', sparam := some 'd' }
        else if c1 == 't' then
          match rest2 with
          | [] => some { st with sparam := some 't' }
          | c2 :: rest3 =>
            if (c2 != 's' && c2 != 'm' && c2 != 'h') || !rest3.isEmpty then none
            else if c2 == 'm' then some { st with sparam := some 't', multiplier := some 60 }
            else if c2 == 'h' then some { st with sparam := some 't', multiplier := some 3600 }
            else some { st with sparam := some 't' }
        else none
    else
      match st.sparam with
      | some c =>
        if c == 'd' then
          some (if st.weighted then { st with wdatas := st.wdatas ++ [arg], sparam := none }
                else { st with udatas := st.udatas ++ [arg], sparam := none })
        else if c == 't' then
          match pyInt arg with
          | some n => some { st with timeout := n * st.timemul, sparam := none }
          | none => none
        else none
      | none => none

def parseLoop : ParseState → List String → Option ParseState
  | st, [] => some st
  | st, a :: rest =>
    match parseArg st a with
    | none => none
    | some st2 => parseLoop st2 rest

/-- `parseParams` from src/hicbem.py: empty argument lists are rejected by the
entry assertion; otherwise the loop runs over the arguments and the triple
`(udatas, wdatas, timeout)` is returned. -/
def parseParams (args : List String) : Option (List String × List String × Int) :=
  if args.isEmpty then none
  else (parseLoop initParseState args).map fun st => (st.udatas, st.wdatas, st.timeout)

/-- Replace a time flag carrying an explicit unit suffix by the bare seconds
flag `-t`; all other arguments are kept unchanged. -/
def stripTimeSuffix (arg : String) : String :=
  if arg == "-ts" || arg == "-tm" || arg == "-th" then "-t" else arg

/-- Everything of a parser state except the never-read `multiplier`. -/
def ParseState.core (st : ParseState) :
    List String × List String × Int × Option Char × Bool × Int :=
  (st.udatas, st.wdatas, st.timeout, st.sparam, st.weighted, st.timemul)

example : parseParams ["-tm", "5"] = some ([], [], 5) := by decide
example : parseParams ["-th", "7"] = some ([], [], 7) := by decide
example : parseParams ["-t", "5"] = some ([], [], 5) := by decide
example : parseParams ["-dw", "x.nsa", "-t", "9"] = some ([], ["x.nsa"], 9) := by decide

/-! ## Theorems -/

/-- C8: for every non-negative number of seconds `s`, `secondsToHms s`
returns `(hours, mins, secs)` with `hours * 3600 + mins * 60 + secs = s`,
`0 ≤ mins < 60` and `0 ≤ secs < 60`: the reported breakdown of an elapsed
time is a faithful decomposition. -/
theorem secondsToHms_decomposition (s : ℚ) (hs : 0 ≤ s) :
    (secondsToHms s).1 * 3600 + (secondsToHms s).2.1 * 60 + (secondsToHms s).2.2 = s ∧
    0 ≤ (secondsToHms s).2.1 ∧ (secondsToHms s).2.1 < 60 ∧
    0 ≤ (secondsToHms s).2.2 ∧ (secondsToHms s).2.2 < 60 := by
  have e : secondsToHms s =
      (((⌊s / 3600⌋ : ℤ) : ℚ),
       ((⌊(s - ((⌊s / 3600⌋ : ℤ) : ℚ) * 3600) / 60⌋ : ℤ) : ℚ),
       s - ((⌊s / 3600⌋ : ℤ) : ℚ) * 3600
         - ((⌊(s - ((⌊s / 3600⌋ : ℤ) : ℚ) * 3600) / 60⌋ : ℤ) : ℚ) * 60) := rfl
  rw [e]
  set H : ℚ := ((⌊s / 3600⌋ : ℤ) : ℚ) with hH
  set M : ℚ := ((⌊(s - H * 3600) / 60⌋ : ℤ) : ℚ) with hM
  have hH1 : H ≤ s / 3600 := Int.floor_le _
  have hH2 : s / 3600 < H + 1 := Int.lt_floor_add_one _
  have hHs : H * 3600 ≤ s := (le_div_iff₀ (by norm_num : (0:ℚ) < 3600)).mp hH1
  have hHs2 : s < (H + 1) * 3600 := (div_lt_iff₀ (by norm_num : (0:ℚ) < 3600)).mp hH2
  have hr0 : 0 ≤ s - H * 3600 := by linarith
  have hr1 : s - H * 3600 < 3600 := by nlinarith
  have hM1 : M ≤ (s - H * 3600) / 60 := Int.floor_le _
  have hM2 : (s - H * 3600) / 60 < M + 1 := Int.lt_floor_add_one _
  have hMs : M * 60 ≤ s - H * 3600 := (le_div_iff₀ (by norm_num : (0:ℚ) < 60)).mp hM1
  have hMs2 : s - H * 3600 < (M + 1) * 60 := (div_lt_iff₀ (by norm_num : (0:ℚ) < 60)).mp hM2
  have hM0 : 0 ≤ M := by
    rw [hM]
    have : (0:ℤ) ≤ ⌊(s - H * 3600) / 60⌋ := Int.floor_nonneg.mpr (by positivity)
    exact_mod_cast this
  have hM60 : M < 60 := by
    rw [hM]
    have h60 : ⌊(s - H * 3600) / 60⌋ < (60 : ℤ) := by
      rw [Int.floor_lt]
      rw [div_lt_iff₀ (by norm_num : (0:ℚ) < 60)]
      push_cast
      linarith
    exact_mod_cast h60
  refine ⟨by dsimp only; ring, hM0, hM60, by dsimp only; linarith, by dsimp only; nlinarith⟩

/-- Witness for C8 at a concrete input. -/
theorem secondsToHms_decomposition_witness :
    (0:ℚ) ≤ 3661 ∧
    ((secondsToHms (3661:ℚ)).1 * 3600 + (secondsToHms (3661:ℚ)).2.1 * 60 +
        (secondsToHms (3661:ℚ)).2.2 = 3661 ∧
      0 ≤ (secondsToHms (3661:ℚ)).2.1 ∧ (secondsToHms (3661:ℚ)).2.1 < 60 ∧
      0 ≤ (secondsToHms (3661:ℚ)).2.2 ∧ (secondsToHms (3661:ℚ)).2.2 < 60) :=
  ⟨by norm_num, secondsToHms_decomposition 3661 (by norm_num)⟩

/-- C6: if spawning the process fails at launch, `execAlgorithm` catches the
error, reports it, skips the monitoring, and returns normally; and on every
input `execAlgorithm` returns normally (the spawn error never propagates). -/
theorem execAlgorithm_spawn_error_nonfatal :
    (∀ (err : String) (timeout fuel : Nat),
        execAlgorithm (Except.error err) timeout fuel = Except.ok [ExecEv.spawnError err]) ∧
    ∀ (spawnResult : Except String Proc) (timeout fuel : Nat),
      (execAlgorithm spawnResult timeout fuel).isOk = true := by
  refine ⟨fun err timeout fuel => rfl, fun spawnResult timeout fuel => ?_⟩
  cases spawnResult <;> rfl

/-- C10: whenever `evalResults` reaches the per-datafile loop with a
non-empty `datafiles` list, the three-argument call of the four-parameter
inner `evaluate` raises `TypeError`, so evaluation of individually specified
dataset files always fails at that call. -/
theorem evalResults_datafiles_type_error (datafiles : List (Bool × String))
    (h : datafiles ≠ []) :
    evalDatafilesLoop datafiles = Except.error PyCallResult.typeError := by
  match datafiles with
  | [] => exact absurd rfl h
  | d :: rest => rfl

/-- Witness for C10 at a concrete input. -/
theorem evalResults_datafiles_type_error_witness :
    ([((false : Bool), "1K5.nsa")] : List (Bool × String)) ≠ [] ∧
    evalDatafilesLoop [((false : Bool), "1K5.nsa")] = Except.error PyCallResult.typeError :=
  ⟨by decide, evalResults_datafiles_type_error [((false : Bool), "1K5.nsa")] (by decide)⟩

lemma ExecPool.admit_capacity (p : ExecPool) : p.admit.capacity = p.capacity := by
  unfold ExecPool.admit
  cases p.pending with
  | nil => rfl
  | cons j rest =>
    dsimp only
    split <;> rfl

lemma ExecPool.admit_active_le (p : ExecPool) (h : p.active.length ≤ p.capacity) :
    p.admit.active.length ≤ p.capacity := by
  unfold ExecPool.admit
  cases p.pending with
  | nil => exact h
  | cons j rest =>
    dsimp only
    split
    · rename_i hlt
      simpa using hlt
    · exact h

lemma ExecPool.step_capacity (p : ExecPool) (e : PoolEvent) :
    (p.step e).capacity = p.capacity := by
  cases e with
  | execute j => exact ExecPool.admit_capacity _
  | reap j => exact ExecPool.admit_capacity _

lemma ExecPool.step_active_le (p : ExecPool) (e : PoolEvent)
    (h : p.active.length ≤ p.capacity) :
    (p.step e).active.length ≤ (p.step e).capacity := by
  rw [ExecPool.step_capacity]
  cases e with
  | execute j => exact ExecPool.admit_active_le _ h
  | reap j =>
    apply ExecPool.admit_active_le
    calc ((p.active.erase j).length : Nat) ≤ p.active.length :=
          (List.erase_sublist j p.active).length_le
      _ ≤ p.capacity := h

lemma ExecPool.runEvents_active_le (evs : List PoolEvent) (p : ExecPool)
    (h : p.active.length ≤ p.capacity) :
    (p.runEvents evs).active.length ≤ (p.runEvents evs).capacity := by
  induction evs generalizing p with
  | nil => exact h
  | cons e rest ih =>
    have hstep := ExecPool.step_active_le p e h
    rw [ExecPool.step_capacity] at hstep
    exact ih (p.step e) (by rw [ExecPool.step_capacity]; exact hstep)

lemma ExecPool.runEvents_capacity (evs : List PoolEvent) (p : ExecPool) :
    (p.runEvents evs).capacity = p.capacity := by
  induction evs generalizing p with
  | nil => rfl
  | cons e rest ih =>
    calc (p.runEvents (e :: rest)).capacity = ((p.step e).runEvents rest).capacity := rfl
      _ = (p.step e).capacity := ih _
      _ = p.capacity := ExecPool.step_capacity p e

/-- C3 counterexample: the claim states that the pools the benchmark
constructs have capacity `max(cpu_count() - 1, 1)`, but the pool constructed
by `runApps` (src/benchmark.py, line 601) has capacity
`max(min(4, cpu_count() - 1), 1)`, which differs at `cpu_count() = 8`
(4 versus 7). -/
theorem runApps_capacity_not_cpu_minus_one :
    ¬ (runAppsPoolCapacity 8 = max (8 - 1) 1) := by decide

/-- C3 (amended): for every capacity `C` and every sequence of submitted and
reaped jobs, the number of concurrently active jobs never exceeds `C`; the
capacities the benchmark constructs — `max(cpu_count()-1, 1)` in
`generateNets`, `shuffleNets`, `convertNets` and `evalResults`, and
`max(min(4, cpu_count()-1), 1)` in `runApps` — are always at least 1. -/
theorem pool_capacity_bound :
    (∀ (c : Nat) (evs : List PoolEvent),
        ((ExecPool.mkPool c).runEvents evs).active.length ≤ c) ∧
    ∀ ncpu : Nat, 1 ≤ genNetsPoolCapacity ncpu ∧ 1 ≤ runAppsPoolCapacity ncpu := by
  constructor
  · intro c evs
    have h := ExecPool.runEvents_active_le evs (ExecPool.mkPool c) (by simp [ExecPool.mkPool])
    rwa [ExecPool.runEvents_capacity] at h
  · intro ncpu
    constructor
    · exact le_max_right _ _
    · exact le_max_right _ _

/-- C4: for each of the handled termination signals (SIGTERM, SIGHUP, SIGINT,
SIGQUIT, SIGABRT), the installed handler is `terminationHandler`, and when the
global pool exists it tears the pool down and clears the global reference
before exiting: the teardown event strictly precedes the exit event and the
final state holds no live pool. -/
theorem termination_signals_teardown_before_exit (sig : Nat) (s : SigState)
    (hsig : sig ∈ handledSignals) (hpool : s.execpool.isSome = true) :
    ∃ h, installedHandler sig = some h ∧ (h s).execpool = none ∧
      (h s).log = s.log ++ [SigEvent.teardown, SigEvent.exitProcess] := by
  refine ⟨terminationHandler, ?_, ?_, ?_⟩
  · unfold installedHandler
    exact if_pos hsig
  · unfold terminationHandler
    cases hp : s.execpool with
    | none => rfl
    | some q => rfl
  · unfold terminationHandler
    cases hp : s.execpool with
    | none => rw [hp] at hpool; cases hpool
    | some q => rfl

/-- Witness for C4 at a concrete signal and state. -/
theorem termination_signals_teardown_before_exit_witness :
    (15 ∈ handledSignals ∧
      (SigState.mk (some (ExecPool.mkPool 3)) []).execpool.isSome = true) ∧
    ∃ h, installedHandler 15 = some h ∧
      (h (SigState.mk (some (ExecPool.mkPool 3)) [])).execpool = none ∧
      (h (SigState.mk (some (ExecPool.mkPool 3)) [])).log =
        [] ++ [SigEvent.teardown, SigEvent.exitProcess] :=
  ⟨⟨by decide, rfl⟩,
    termination_signals_teardown_before_exit 15 (SigState.mk (some (ExecPool.mkPool 3)) [])
      (by decide) rfl⟩

/-- C5 counterexample: in `benchmark` of src/hicbem.py the `try` wraps the
whole algorithm loop, so a `StandardError` raised by the first algorithm
prevents the second from ever being invoked — the invoked list is not the
full list of algorithms, contradicting the claim that every subsequent
algorithm is still invoked. -/
theorem benchmark_algs_loop_stops_on_failure :
    (benchmarkAlgsLoop
        [("Louvain", Except.error "spawn failure"), ("HiReCS", Except.ok ())]).1 ≠
      ["Louvain", "HiReCS"] := by decide

/-- C5 (amended): in `runApps.execute` of src/benchmark.py the per-iteration
`try`/`except StandardError` makes every failure local — all algorithms are
invoked no matter which of them fail; in `benchmark` of src/hicbem.py the
single `try` around the loop means a raised `StandardError` aborts the loop:
the algorithms before the first failing one and the failing one itself are
invoked, the later ones are not. -/
theorem failure_locality (algsB : List (String × Except String Nat)) (jobsnum : Nat)
    (pre : List (String × Except String Unit)) (nm e : String)
    (post : List (String × Except String Unit))
    (hpre : ∀ x ∈ pre, (Prod.snd x).isOk = true) :
    (runAppsExecute algsB jobsnum).2.1 = algsB.map Prod.fst ∧
    benchmarkAlgsLoop (pre ++ (nm, Except.error e) :: post) =
      (pre.map Prod.fst ++ [nm], some e) := by
  constructor
  · induction algsB generalizing jobsnum with
    | nil => rfl
    | cons hd tl ih =>
      obtain ⟨nm0, r0⟩ := hd
      cases r0 with
      | ok n => simpa [runAppsExecute] using ih (jobsnum + n)
      | error e0 => simpa [runAppsExecute] using ih jobsnum
  · induction pre with
    | nil => rfl
    | cons hd tl ih =>
      obtain ⟨nm0, r0⟩ := hd
      cases r0 with
      | ok u =>
        have htl : ∀ x ∈ tl, (Prod.snd x).isOk = true := by
          intro x hx
          exact hpre x (List.mem_cons_of_mem _ hx)
        simp only [List.cons_append, benchmarkAlgsLoop, List.append_eq, ih htl,
          List.map_cons, List.cons_append]
      | error e0 =>
        have := hpre (nm0, Except.error e0) (List.mem_cons_self _ _)
        simp [Except.isOk, Except.toBool] at this

/-- Witness for C5's amended theorem at concrete inputs. -/
theorem failure_locality_witness :
    (∀ x ∈ [("Louvain", (Except.ok () : Except String Unit))], (Prod.snd x).isOk = true) ∧
    ((runAppsExecute [("scp", Except.error "boom"), ("hirecs", Except.ok 1)] 0).2.1 =
        [("scp", (Except.error "boom" : Except String Nat)),
          ("hirecs", Except.ok 1)].map Prod.fst ∧
      benchmarkAlgsLoop
          ([("Louvain", (Except.ok () : Except String Unit))] ++
            ("HiReCS", Except.error "spawn failure") :: []) =
        ([("Louvain", (Except.ok () : Except String Unit))].map Prod.fst ++ ["HiReCS"],
          some "spawn failure")) :=
  ⟨by decide,
    failure_locality [("scp", Except.error "boom"), ("hirecs", Except.ok 1)] 0
      [("Louvain", (Except.ok () : Except String Unit))] "HiReCS" "spawn failure" []
      (by decide)⟩

/-- C7: with `timeout = 0` the monitoring loop never sends a terminate or a
kill signal — any terminating run records neither — and for a process that
never exits naturally the loop polls forever (it returns for no amount of
fuel): timeout 0 means unbounded execution. -/
theorem timeout_zero_unbounded (p : Proc) :
    (∀ (fuel t : Nat) (r : CTResult), controlTime p 0 fuel t = some r →
        r.termAt = none ∧ r.killAt = none) ∧
    (p.natExit = none → ∀ fuel t : Nat, controlTime p 0 fuel t = none) := by
  constructor
  · intro fuel
    induction fuel with
    | zero => intro t r h; cases h
    | succ n ih =>
      intro t r h
      rw [controlTime] at h
      split at h
      · cases h; exact ⟨rfl, rfl⟩
      · rw [if_neg (by simp)] at h
        exact ih (t + 1) r h
  · intro hnat fuel
    induction fuel with
    | zero => intro t; rfl
    | succ n ih =>
      intro t
      rw [controlTime]
      have hd : pollDead p none false t = false := by
        simp [pollDead, hnat]
      rw [hd]
      rw [if_neg (by simp only [Bool.false_eq_true]; exact fun h => h.elim)]
      rw [if_neg (by simp)]
      exact ih t.succ

/-- Witness for C7 at concrete inputs: a process that exits naturally at
time 2 is reaped with no terminate and no kill, and an immortal process keeps
the loop running past any fuel. -/
theorem timeout_zero_unbounded_witness :
    (controlTime ⟨some 2, none⟩ 0 5 0 = some ⟨2, none, none⟩ ∧
      (CTResult.mk 2 none none).termAt = none ∧ (CTResult.mk 2 none none).killAt = none) ∧
    ((Proc.mk none (some 3)).natExit = none ∧ controlTime ⟨none, some 3⟩ 0 7 0 = none) :=
  ⟨⟨by decide, (timeout_zero_unbounded ⟨some 2, none⟩).1 5 0 ⟨2, none, none⟩ (by decide)⟩,
    ⟨rfl, (timeout_zero_unbounded ⟨none, some 3⟩).2 rfl 7 0⟩⟩

lemma graceWait_le (p : Proc) (ta : Nat) : ∀ n t : Nat, graceWait p ta n t ≤ t + n := by
  intro n
  induction n with
  | zero => intro t; simp [graceWait]
  | succ m ih =>
    intro t
    rw [graceWait]
    split
    · omega
    · have := ih (t + 1); omega

lemma graceWait_full (p : Proc) (ta : Nat) :
    ∀ n t : Nat, pollDead p (some ta) false (graceWait p ta n t) = false →
      graceWait p ta n t = t + n := by
  intro n
  induction n with
  | zero => intro t _; rfl
  | succ m ih =>
    intro t h
    by_cases hp : pollDead p (some ta) false t = true
    · rw [graceWait, if_pos hp] at h
      rw [h] at hp
      cases hp
    · rw [graceWait, if_neg hp] at h ⊢
      rw [ih (t + 1) h]
      omega

lemma controlTime_timeout_bound (p : Proc) (T : Nat) (hT : 0 < T) :
    ∀ fuel t : Nat, t ≤ T → T + 1 ≤ t + fuel →
    ∃ r, controlTime p T fuel t = some r ∧ r.tEnd ≤ T + 11 ∧
      ∀ ta, r.termAt = some ta → ta ≤ T + 1 := by
  intro fuel
  induction fuel with
  | zero => intro t ht hf; omega
  | succ n ih =>
    intro t ht hf
    rw [controlTime]
    by_cases hd : pollDead p none false t = true
    · refine ⟨⟨t, none, none⟩, by rw [if_pos hd], by dsimp only; omega, ?_⟩
      intro ta hta; cases hta
    · rw [if_neg hd]
      by_cases hto : T ≠ 0 ∧ t + 1 > T
      · rw [if_pos hto]
        have hg : graceWait p (t + 1) 10 (t + 1) ≤ t + 1 + 10 := graceWait_le p (t + 1) 10 (t + 1)
        by_cases hk : pollDead p (some (t + 1)) false (graceWait p (t + 1) 10 (t + 1)) = true
        · refine ⟨⟨graceWait p (t + 1) 10 (t + 1), some (t + 1), none⟩,
            by rw [if_pos hk], by dsimp only; omega, ?_⟩
          intro ta hta
          cases hta
          omega
        · refine ⟨⟨graceWait p (t + 1) 10 (t + 1), some (t + 1),
              some (graceWait p (t + 1) 10 (t + 1))⟩,
            by rw [if_neg hk], by dsimp only; omega, ?_⟩
          intro ta hta
          cases hta
          omega
      · rw [if_neg hto]
        have hle : t + 1 ≤ T := by
          by_contra hgt
          exact hto ⟨by omega, by omega⟩
        exact ih (t + 1) hle (by omega)

/-- Under the clock semantics the spec intends (a reading that advances with
the sleeps, origin at the recorded spawn time), the monitoring loop would
satisfy the spec's timeout-accuracy property: it finishes, any terminate is
sent within one one-second tick after the elapsed time first exceeds `T`,
and the final state is reached within `T + grace_window(10) + one_tick` of
the spawn time.  The source does not implement this semantics on
Python 2 / POSIX — see `controlTime_cpu_clock_never_times_out`. -/
theorem controlTime_intended_semantics_bound (p : Proc) (T : Nat) (hT : 0 < T) :
    ∃ r, controlTime p T (T + 1) 0 = some r ∧ r.tEnd ≤ T + 10 + 1 ∧
      ∀ ta, r.termAt = some ta → ta ≤ T + 1 :=
  controlTime_timeout_bound p T hT (T + 1) 0 (by omega) (by omega)

/-- C1 (code bug): the claim's property is what the spec intends, but the
source's guard `time.clock() - exectime > timeout` (src/hicbem.py, line 102)
reads the parent's CPU time on Python 2 / POSIX, which the sleep-only
monitor does not accrue: the reading never moves past its spawn-time value,
the guard never fires for any positive timeout, no terminate or kill is ever
sent, and a job sleeping past its timeout runs to its natural exit — at the
failing input `timeout = 1` with a command sleeping 20 seconds, the loop
ends only at 20, violating the claimed `T + grace_window(10) + one_tick`
bound of 12. -/
theorem controlTime_cpu_clock_never_times_out :
    (∀ (p : Proc) (T cpu0 fuel t : Nat) (r : CTResult),
        controlTimeCpu p T cpu0 fuel t cpu0 = some r →
        r.termAt = none ∧ r.killAt = none) ∧
    controlTimeCpu ⟨some 20, none⟩ 1 0 21 0 0 = some ⟨20, none, none⟩ ∧
    ¬((20 : Nat) ≤ 1 + 10 + 1) := by
  refine ⟨?_, by decide, by decide⟩
  intro p T cpu0 fuel
  induction fuel with
  | zero => intro t r h; cases h
  | succ n ih =>
    intro t r h
    rw [controlTimeCpu] at h
    split at h
    · cases h; exact ⟨rfl, rfl⟩
    · rw [if_neg (by omega)] at h
      exact ih (t + 1) r h

/-- Witness for C1's theorem at a concrete input: under the CPU-time clock a
process that exits naturally at time 2 is reaped with no terminate and no
kill even though its timeout is 5. -/
theorem controlTime_cpu_clock_never_times_out_witness :
    controlTimeCpu ⟨some 2, none⟩ 5 7 4 0 7 = some ⟨2, none, none⟩ ∧
    (CTResult.mk 2 none none).termAt = none ∧ (CTResult.mk 2 none none).killAt = none :=
  ⟨by decide,
    controlTime_cpu_clock_never_times_out.1 ⟨some 2, none⟩ 5 7 4 0 ⟨2, none, none⟩ (by decide)⟩

/-- C2: in any terminating run of the monitoring loop, a kill is sent only
after a terminate was sent and only at the end of the full 10-second grace
window, with the process still alive at that instant; and whenever a
terminate was sent to a process that is dead by the end of the grace window
(it exited within the window), no kill is ever sent. -/
theorem controlTime_grace_then_kill (p : Proc) (T fuel t : Nat) (r : CTResult)
    (h : controlTime p T fuel t = some r) :
    (∀ tk, r.killAt = some tk → ∃ ta, r.termAt = some ta ∧ tk = ta + 10 ∧
        pollDead p (some ta) false (ta + 10) = false) ∧
    (∀ ta, r.termAt = some ta → pollDead p (some ta) false (ta + 10) = true →
        r.killAt = none) := by
  induction fuel generalizing t with
  | zero => cases h
  | succ n ih =>
    rw [controlTime] at h
    split at h
    · cases h
      exact ⟨fun tk htk => (by cases htk), fun ta hta => (by cases hta)⟩
    · split at h
      · split at h <;> rename_i hk
        · cases h
          refine ⟨fun tk htk => (by cases htk), fun ta hta _ => rfl⟩
        · cases h
          have hkf : pollDead p (some (t + 1)) false (graceWait p (t + 1) 10 (t + 1)) = false := by
            revert hk
            cases pollDead p (some (t + 1)) false (graceWait p (t + 1) 10 (t + 1)) <;> simp
          have hfull : graceWait p (t + 1) 10 (t + 1) = t + 1 + 10 :=
            graceWait_full p (t + 1) 10 (t + 1) hkf
          constructor
          · intro tk htk
            cases htk
            exact ⟨t + 1, rfl, hfull, by rw [← hfull]; exact hkf⟩
          · intro ta hta hpoll
            cases hta
            rw [← hfull] at hpoll
            rw [hpoll] at hkf
            cases hkf
      · exact ih (t + 1) h

/-- Witness for C2 at a concrete input: a process that ignores the terminate
signal is killed exactly at the end of the grace window. -/
theorem controlTime_grace_then_kill_witness :
    controlTime ⟨none, none⟩ 1 3 0 = some ⟨12, some 2, some 12⟩ ∧
    ((∀ tk, (CTResult.mk 12 (some 2) (some 12)).killAt = some tk →
        ∃ ta, (CTResult.mk 12 (some 2) (some 12)).termAt = some ta ∧ tk = ta + 10 ∧
          pollDead ⟨none, none⟩ (some ta) false (ta + 10) = false) ∧
      (∀ ta, (CTResult.mk 12 (some 2) (some 12)).termAt = some ta →
        pollDead ⟨none, none⟩ (some ta) false (ta + 10) = true →
        (CTResult.mk 12 (some 2) (some 12)).killAt = none)) :=
  ⟨by decide, controlTime_grace_then_kill ⟨none, none⟩ 1 3 0 ⟨12, some 2, some 12⟩ (by decide)⟩

lemma parseArg_core_congr (u w : List String) (tmo : Int) (sp : Option Char)
    (wg : Bool) (tml : Int) (m m2 : Option Int) (a : String) :
    (parseArg ⟨u, w, tmo, sp, wg, tml, m⟩ a).map ParseState.core =
      (parseArg ⟨u, w, tmo, sp, wg, tml, m2⟩ a).map ParseState.core := by
  unfold parseArg
  cases ha : a.toList with
  | nil => rfl
  | cons c0 rest =>
    dsimp only
    repeat' split <;> try rfl

lemma parseArg_time_flag_core (st : ParseState) (a : String)
    (ha : a = "-ts" ∨ a = "-tm" ∨ a = "-th") :
    (parseArg st "-t").map ParseState.core = (parseArg st a).map ParseState.core := by
  obtain ⟨u, w, tmo, sp, wg, tml, m⟩ := st
  rcases ha with h | h | h <;> subst h <;> cases sp <;> rfl

lemma parseArg_strip_core (st st2 : ParseState) (a : String)
    (hc : st.core = st2.core) :
    (parseArg st (stripTimeSuffix a)).map ParseState.core =
      (parseArg st2 a).map ParseState.core := by
  obtain ⟨u, w, tmo, sp, wg, tml, m⟩ := st
  obtain ⟨u2, w2, tmo2, sp2, wg2, tml2, m2⟩ := st2
  simp only [ParseState.core, Prod.mk.injEq] at hc
  obtain ⟨h1, h2, h3, h4, h5, h6⟩ := hc
  subst h1; subst h2; subst h3; subst h4; subst h5; subst h6
  by_cases hsp : a = "-ts" ∨ a = "-tm" ∨ a = "-th"
  · have hstrip : stripTimeSuffix a = "-t" := by
      rcases hsp with h | h | h <;> subst h <;> rfl
    rw [hstrip]
    calc (parseArg ⟨u, w, tmo, sp, wg, tml, m⟩ "-t").map ParseState.core
        = (parseArg ⟨u, w, tmo, sp, wg, tml, m⟩ a).map ParseState.core :=
          parseArg_time_flag_core _ a hsp
      _ = (parseArg ⟨u, w, tmo, sp, wg, tml, m2⟩ a).map ParseState.core :=
          parseArg_core_congr u w tmo sp wg tml m m2 a
  · have hbool : ¬((a == "-ts" || a == "-tm" || a == "-th") = true) := by
      simp only [Bool.or_eq_true, beq_iff_eq]
      tauto
    have hstrip : stripTimeSuffix a = a := by
      unfold stripTimeSuffix
      rw [if_neg hbool]
    rw [hstrip]
    exact parseArg_core_congr u w tmo sp wg tml m m2 a

lemma parseLoop_strip_core (l : List String) :
    ∀ st st2 : ParseState, st.core = st2.core →
      (parseLoop st (l.map stripTimeSuffix)).map ParseState.core =
        (parseLoop st2 l).map ParseState.core := by
  induction l with
  | nil =>
    intro st st2 hc
    exact congrArg some hc
  | cons a l ih =>
    intro st st2 hc
    have hstep := parseArg_strip_core st st2 a hc
    simp only [List.map_cons, parseLoop]
    cases h1 : parseArg st (stripTimeSuffix a) with
    | none =>
      cases h2 : parseArg st2 a with
      | none => rfl
      | some s2 =>
        rw [h1, h2] at hstep
        cases hstep
    | some s1 =>
      cases h2 : parseArg st2 a with
      | none =>
        rw [h1, h2] at hstep
        cases hstep
      | some s2 =>
        rw [h1, h2] at hstep
        exact ih s1 s2 (Option.some.inj (by simpa using hstep))

/-- C9: in hicbem's `parseParams` the `-tm` / `-th` time-unit suffixes have
no effect on the result, because the minute/hour multiplier is assigned to a
variable that is never used in the timeout computation: replacing every
suffixed time flag by the bare `-t` leaves the outcome of parsing unchanged
on every argument list, and the suffixed forms yield `timeout = int(value)`
with no unit conversion. -/
theorem parseParams_time_suffix_ignored :
    (∀ args : List String, parseParams (args.map stripTimeSuffix) = parseParams args) ∧
    parseParams ["-tm", "5"] = some ([], [], 5) ∧
    parseParams ["-th", "7"] = some ([], [], 7) := by
  refine ⟨?_, by decide, by decide⟩
  intro args
  have hout : ∀ o : Option ParseState,
      o.map (fun st => (st.udatas, st.wdatas, st.timeout)) =
        (o.map ParseState.core).map (fun c => (c.1, c.2.1, c.2.2.1)) := by
    intro o
    cases o <;> rfl
  cases args with
  | nil => rfl
  | cons a l =>
    unfold parseParams
    rw [if_neg (by simp), if_neg (by simp)]
    rw [hout, hout, parseLoop_strip_core (a :: l) initParseState initParseState rfl]

end PyCABeM
